import Mathlib

/-!
# Verification of the extraction-to-statement pipeline

Shallow embedding of the deterministic core of the accounting workbench:
row extraction from tabular sources, classification merging, statement
aggregation (grouping, ordering, totals), consistency checking, and the
line editor.  Monetary values are modelled as rationals; the JavaScript
`||` fallbacks, string coercions and `Array` operations are translated
explicitly.
-/

/-- One ledger line (`AccountLine` in the source types).  The `type` field
holds the string value of the `AccountType` enum (`"ACTIVO"`, `"PASIVO"`,
`"PATRIMONIO_NETO"`, `"INGRESOS"`, `"EGRESOS"`, `"SIN_CLASIFICAR"`); the
runtime cast in the source does not validate the string, so `String` is the
faithful carrier. -/
structure AccountLine where
  id : String
  code : String
  name : String
  debit : Rat
  credit : Rat
  balance : Rat
  type : String
  category : String
  isGroup : Bool
  manualOverride : Bool
deriving DecidableEq

/-- A raw extracted line (`Partial<AccountLine>` in the source): every field
may be absent. -/
structure RawLine where
  code : Option String
  name : Option String
  debit : Option Rat
  credit : Option Rat
  balance : Option Rat
deriving DecidableEq

/-- One finding of the consistency checker (`Inconsistency` in the source
types).  `severity` carries the string literal used by the source. -/
structure Inconsistency where
  id : String
  severity : String
  message : String
  relatedAccountIds : List String
deriving DecidableEq

/-- The column role mapping returned by the oracle for tabular sources; `-1`
denotes an absent column, as in the source. -/
structure ColumnMapping where
  codeIndex : Int
  nameIndex : Int
  debitIndex : Int
  creditIndex : Int
  balanceIndex : Int
  startRow : Int
deriving DecidableEq

/-- One entry of the classification mapping (`{type, category, isGroup}`). -/
structure ClassifEntry where
  type : String
  category : String
  isGroup : Bool
deriving DecidableEq

/-! ## Row extraction (`parseFinancialDocument`, spreadsheet strategy) -/

/-- `row[i]` for a JavaScript array: `none` when the index is out of range
(including negative indices). -/
def getCell (row : List String) (i : Int) : Option String :=
  if i < 0 then none else row.get? i.toNat

/-- `String(row[i])` as used for the numeric cells: an absent cell is the
string `"undefined"`. -/
def numCellStr (row : List String) (i : Int) : String :=
  match getCell row i with
  | some s => s
  | none => "undefined"

/-- `s.replace(/[^0-9.-]/g, '')`: keep only digits, `.` and `-`. -/
def stripNum (s : String) : List Char :=
  s.toList.filter (fun c => c.isDigit || c == '.' || c == '-')

/-- Value of a digit string. -/
def digitsVal (cs : List Char) : Nat :=
  cs.foldl (fun n c => 10 * n + (c.toNat - '0'.toNat)) 0

/-- `parseFloat` restricted to strings over `0-9 . -` (the alphabet left by
`stripNum`): an optional leading minus sign followed by the longest prefix
`digits`, `digits.digits`, or `.digits`; `none` when no digit is consumed
(JavaScript `NaN`). -/
def parseSigned (cs : List Char) : Option Rat :=
  let p := match cs with
    | '-' :: r => (true, r)
    | r => (false, r)
  let intDs := p.2.takeWhile Char.isDigit
  let rest2 := p.2.drop intDs.length
  let fracDs := match rest2 with
    | '.' :: r2 => r2.takeWhile Char.isDigit
    | _ => []
  if intDs.isEmpty && fracDs.isEmpty then none
  else
    let mag : Rat := (digitsVal intDs : Rat) + (digitsVal fracDs : Rat) / ((10 : Rat) ^ fracDs.length)
    some (if p.1 then -mag else mag)

/-- `parseFloat(String(cell).replace(/[^0-9.-]/g, '')) || 0`: a cell that
fails to parse contributes zero. -/
def parseNum (s : String) : Rat :=
  (parseSigned (stripNum s)).getD 0

/-- The name cell: `mapping.nameIndex > -1 ? String(row[idx] || '').trim() : ''`. -/
def rowName (m : ColumnMapping) (row : List String) : String :=
  if m.nameIndex > -1 then ((getCell row m.nameIndex).getD "").trim else ""

/-- The code cell: `mapping.codeIndex > -1 ? String(row[idx] || '') : ''`. -/
def rowCode (m : ColumnMapping) (row : List String) : String :=
  if m.codeIndex > -1 then (getCell row m.codeIndex).getD "" else ""

/-- Build the raw line pushed for one retained row: both debit and credit
columns mapped take precedence; else a single balance column determines the
side that absorbs the magnitude; else all numeric fields are zero. -/
def mkLine (m : ColumnMapping) (row : List String) : RawLine :=
  if m.debitIndex > -1 && m.creditIndex > -1 then
    let debit := parseNum (numCellStr row m.debitIndex)
    let credit := parseNum (numCellStr row m.creditIndex)
    { code := some (rowCode m row), name := some (rowName m row),
      debit := some debit, credit := some credit, balance := some (debit - credit) }
  else if m.balanceIndex > -1 then
    let balance := parseNum (numCellStr row m.balanceIndex)
    { code := some (rowCode m row), name := some (rowName m row),
      debit := some (if balance > 0 then balance else 0),
      credit := some (if balance > 0 then 0 else |balance|),
      balance := some balance }
  else
    { code := some (rowCode m row), name := some (rowName m row),
      debit := some 0, credit := some 0, balance := some 0 }

/-- The extraction loop body over the rows from `startRow` on: skip empty
rows and rows whose name cell trims to the empty string, push `mkLine`
otherwise. -/
def extractLoop (m : ColumnMapping) : List (List String) → List RawLine
  | [] => []
  | row :: rest =>
    if row.isEmpty then extractLoop m rest
    else if rowName m row = "" then extractLoop m rest
    else mkLine m row :: extractLoop m rest

/-- The deterministic spreadsheet extraction of `parseFinancialDocument`:
iterate rows from `mapping.startRow || 0` (negative indices hit `undefined`
rows and are skipped by the `!row` guard, hence `Int.toNat`). -/
def parseFinancialRows (rows : List (List String)) (m : ColumnMapping) : List RawLine :=
  extractLoop m (rows.drop m.startRow.toNat)

/-! ## Classification merging (`classifyAccounts`, final deterministic map) -/

/-- The merged line built for `accounts[i]` by `classifyAccounts`: JavaScript
`||` fallbacks applied to each field; `uuid i` stands for the `i`-th value
produced by `crypto.randomUUID()`. -/
def mergedLine (uuid : Nat → String) (cmap : Nat → Option ClassifEntry)
    (i : Nat) (acc : RawLine) : AccountLine :=
  { id := uuid i,
    code := acc.code.getD "",
    name :=
      match acc.name with
      | some n => if n = "" then "Cuenta Desconocida" else n
      | none => "Cuenta Desconocida",
    debit := acc.debit.getD 0,
    credit := acc.credit.getD 0,
    balance :=
      match acc.balance with
      | some b => if b = 0 then acc.debit.getD 0 - acc.credit.getD 0 else b
      | none => acc.debit.getD 0 - acc.credit.getD 0,
    type :=
      match cmap i with
      | some e => if e.type = "" then "SIN_CLASIFICAR" else e.type
      | none => "SIN_CLASIFICAR",
    category :=
      match cmap i with
      | some e => if e.category = "" then "Sin Clasificar" else e.category
      | none => "Sin Clasificar",
    isGroup :=
      match cmap i with
      | some e => e.isGroup
      | none => false,
    manualOverride := false }

/-- `accounts.map((acc, index) => ...)` with the running index made
explicit. -/
def mergeFrom (uuid : Nat → String) (cmap : Nat → Option ClassifEntry) :
    Nat → List RawLine → List AccountLine
  | _, [] => []
  | i, acc :: rest => mergedLine uuid cmap i acc :: mergeFrom uuid cmap (i + 1) rest

/-- The deterministic merge performed by `classifyAccounts` once the
classification mapping has been materialised. -/
def classifyAccounts (uuid : Nat → String) (cmap : Nat → Option ClassifEntry)
    (accounts : List RawLine) : List AccountLine :=
  mergeFrom uuid cmap 0 accounts

/-! ## Statement aggregation (`groupedFinancials`) -/

/-- One `{name, accounts, total}` category group of the statement. -/
structure CatGroup where
  name : String
  accounts : List AccountLine
  total : Rat
deriving DecidableEq

/-- The fixed CNV priority table (`defaultOrderMap` in the source): category
name to small integer rank. -/
def defaultOrderList : List (String × Nat) :=
  [("Caja y Bancos", 1), ("Inversiones", 2), ("Créditos por Ventas", 3), ("Otros Créditos", 4),
   ("Bienes de Cambio", 5), ("Bienes de Uso", 6), ("Activos Intangibles", 7),
   ("Deudas Comerciales", 1), ("Deudas Bancarias", 2), ("Deudas Sociales y Fiscales", 3),
   ("Otras Deudas", 4), ("Previsiones", 5),
   ("Capital Social", 1), ("Reservas", 2), ("Resultados Acumulados", 3)]

/-- `defaultOrderMap[s]`: `none` models JavaScript `undefined`. -/
def defaultOrderMap (s : String) : Option Nat :=
  defaultOrderList.lookup s

/-- `defaultOrderMap[s] || 99` (ranks are ≥ 1, so `||` is absence). -/
def rank99 (s : String) : Nat :=
  (defaultOrderMap s).getD 99

/-- `a.localeCompare(b)` modelled as code-point string comparison. -/
def alphaCmp (a b : String) : Int :=
  if a < b then -1 else if b < a then 1 else 0

/-- The category comparator of `sortedCategories`: with a custom model the
table ranks win, table entries precede unknown ones and unknown pairs fall
back to alphabetical; without one every category gets rank `99` by default. -/
def srcCompare (hasCustomModel : Bool) (a b : String) : Int :=
  match hasCustomModel with
  | true =>
    match defaultOrderMap a, defaultOrderMap b with
    | some oa, some ob => (oa : Int) - ob
    | some _, none => -1
    | none, some _ => 1
    | none, none => alphaCmp a b
  | false => (rank99 a : Int) - rank99 b

/-- The total preorder induced by the comparator (`compare(a,b) <= 0` means
`a` may precede `b`). -/
def sortRel (hasCustomModel : Bool) (a b : String) : Prop :=
  srcCompare hasCustomModel a b ≤ 0

instance (c : Bool) : DecidableRel (sortRel c) :=
  fun a b => by unfold sortRel; infer_instance

/-- `Object.keys(groups).sort(comparator)`: JavaScript `Array.prototype.sort`
is a stable sort, uniquely determined here because the comparator induces a
total preorder. -/
def sortedCategories (hasCustomModel : Bool) (keys : List String) : List String :=
  List.insertionSort (sortRel hasCustomModel) keys

/-- `acc.category || 'Otros'`. -/
def catOf (a : AccountLine) : String :=
  if a.category = "" then "Otros" else a.category

/-- The bucket of a category key (`groups[cat]`, in push order). -/
def groupMembers (filtered : List AccountLine) (cat : String) : List AccountLine :=
  filtered.filter (fun a => catOf a == cat)

/-- The key list of the `groups` record: string keys of a JavaScript object
iterate in insertion order, i.e. order of first occurrence. -/
def dedupFirst : List String → List String
  | [] => []
  | a :: l => a :: dedupFirst (l.filter (fun b => b != a))
termination_by l => l.length
decreasing_by
  exact Nat.lt_succ_of_le (l.length_filter_le _)

/-- `groupByTypeAndCategory(type)`: filter the non-group lines of a section,
bucket them by category, and emit the buckets in sorted key order with their
balance totals. -/
def groupByTypeAndCategory (hasCustomModel : Bool) (accounts : List AccountLine)
    (t : String) : List CatGroup :=
  let filtered := accounts.filter (fun a => a.type == t && !a.isGroup)
  let keys := dedupFirst (filtered.map catOf)
  (sortedCategories hasCustomModel keys).map (fun cat =>
    { name := cat, accounts := groupMembers filtered cat,
      total := (groupMembers filtered cat).foldl (fun s a => s + a.balance) 0 })

/-- The derived statement returned by the `groupedFinancials` memo. -/
structure GroupedFinancials where
  assets : List CatGroup
  liabilities : List CatGroup
  equity : List CatGroup
  revenue : List CatGroup
  expenses : List CatGroup
  assetsTotal : Rat
  liabilitiesTotal : Rat
  equityTotal : Rat
  revenueTotal : Rat
  expenseTotal : Rat
  netResult : Rat
deriving DecidableEq

/-- `groupedFinancials`: the five sections with their totals and the net
period result `abs(revenueTotal) - abs(expenseTotal)`. -/
def groupedFinancials (hasCustomModel : Bool) (accounts : List AccountLine) :
    GroupedFinancials :=
  let assets := groupByTypeAndCategory hasCustomModel accounts "ACTIVO"
  let liabilities := groupByTypeAndCategory hasCustomModel accounts "PASIVO"
  let equity := groupByTypeAndCategory hasCustomModel accounts "PATRIMONIO_NETO"
  let revenue := groupByTypeAndCategory hasCustomModel accounts "INGRESOS"
  let expenses := groupByTypeAndCategory hasCustomModel accounts "EGRESOS"
  let revenueTotal := revenue.foldl (fun s g => s + g.total) 0
  let expenseTotal := expenses.foldl (fun s g => s + g.total) 0
  { assets := assets,
    liabilities := liabilities,
    equity := equity,
    revenue := revenue,
    expenses := expenses,
    assetsTotal := assets.foldl (fun s g => s + g.total) 0,
    liabilitiesTotal := liabilities.foldl (fun s g => s + g.total) 0,
    equityTotal := equity.foldl (fun s g => s + g.total) 0,
    revenueTotal := revenueTotal,
    expenseTotal := expenseTotal,
    netResult := |revenueTotal| - |expenseTotal| }

/-- All detail lines shown by the statement: concatenation of every category
group's line list across the five sections. -/
def statementLines (g : GroupedFinancials) : List AccountLine :=
  ((g.assets ++ g.liabilities ++ g.equity ++ g.revenue ++ g.expenses).map
    (fun grp => grp.accounts)).flatten

/-! ## Consistency checking (`inconsistencies`) -/

/-- `accounts.filter(a => !a.isGroup).reduce((s, a) => s + a.balance, 0)`. -/
def grandTotal (accounts : List AccountLine) : Rat :=
  (accounts.filter (fun a => !a.isGroup)).foldl (fun s a => s + a.balance) 0

/-- JavaScript `Number.prototype.toFixed(2)`: sign split, then the magnitude
rounded to two decimals with ties away from zero. -/
def toFixed2 (q : Rat) : String :=
  let sign := if q < 0 then "-" else ""
  let n : Nat := (|q| * 100 + 1 / 2).floor.toNat
  let frac := n % 100
  sign ++ toString (n / 100) ++ "." ++ (if frac < 10 then "0" else "") ++ toString frac

/-- The consistency checker: one `high` finding when the grand total misses
zero by more than one unit of currency, nothing otherwise. -/
def inconsistencies (accounts : List AccountLine) : List Inconsistency :=
  let g := grandTotal accounts
  if 1 < |g| then
    [{ id := "diff-balance", severity := "high",
       message := "El balance no da cero (Diferencia: " ++ toFixed2 g ++ "). Revisar asientos.",
       relatedAccountIds := [] }]
  else []

/-! ## Manual editing (`handleManualEdit`, `handleDeleteAccount`) -/

/-- The closed set of editable fields together with the value written, as
driven by the editor grid (strings for text fields, numbers for amounts). -/
inductive FieldVal where
  | code (s : String)
  | name (s : String)
  | category (s : String)
  | typ (s : String)
  | debit (v : Rat)
  | credit (v : Rat)
  | balance (v : Rat)
deriving DecidableEq

/-- `{...acc, [field]: value, manualOverride: true}` followed by the
debit/credit balance re-derivation. -/
def editLine (acc : AccountLine) (fv : FieldVal) : AccountLine :=
  match fv with
  | .code s => { acc with code := s, manualOverride := true }
  | .name s => { acc with name := s, manualOverride := true }
  | .category s => { acc with category := s, manualOverride := true }
  | .typ s => { acc with type := s, manualOverride := true }
  | .debit v => { acc with debit := v, balance := v - acc.credit, manualOverride := true }
  | .credit v => { acc with credit := v, balance := acc.debit - v, manualOverride := true }
  | .balance v => { acc with balance := v, manualOverride := true }

/-- `handleManualEdit`: map over the lines, editing those whose id matches. -/
def handleManualEdit (lines : List AccountLine) (id : String) (fv : FieldVal) :
    List AccountLine :=
  lines.map (fun acc => if acc.id = id then editLine acc fv else acc)

/-- `handleDeleteAccount`: keep the lines whose id differs. -/
def handleDeleteAccount (lines : List AccountLine) (id : String) : List AccountLine :=
  lines.filter (fun a => a.id != id)

/-! ## Concrete scenario data -/

/-- The asset line of the balance-sheet identity scenario. -/
def demoCash : AccountLine :=
  { id := "a1", code := "", name := "Cash", debit := 100, credit := 0, balance := 100,
    type := "ACTIVO", category := "Caja y Bancos", isGroup := false, manualOverride := false }

/-- The liability line of the balance-sheet identity scenario. -/
def demoLoan : AccountLine :=
  { id := "l1", code := "", name := "Loan", debit := 0, credit := 40, balance := -40,
    type := "PASIVO", category := "Deudas Bancarias", isGroup := false, manualOverride := false }

/-- The equity line of the balance-sheet identity scenario. -/
def demoCapital : AccountLine :=
  { id := "e1", code := "", name := "Capital", debit := 0, credit := 60, balance := -60,
    type := "PATRIMONIO_NETO", category := "Capital Social", isGroup := false,
    manualOverride := false }

/-- The equity line with its balance changed to `-50`. -/
def demoCapitalOff : AccountLine :=
  { demoCapital with balance := -50 }

/-- Lines summing to a zero grand total. -/
def demoBalanced : List AccountLine := [demoCash, demoLoan, demoCapital]

/-- Lines summing to a grand total of `10`. -/
def demoUnbalanced : List AccountLine := [demoCash, demoLoan, demoCapitalOff]

/-- A non-group line left unclassified by the oracle. -/
def demoUnclassified : AccountLine :=
  { id := "u1", code := "", name := "Mystery", debit := 0, credit := 0, balance := 5,
    type := "SIN_CLASIFICAR", category := "Otros", isGroup := false, manualOverride := false }

/-- A deterministic stand-in for the stream of generated UUIDs. -/
def demoUuid (n : Nat) : String := String.mk (List.replicate n 'u')

/-- The raw line of the fallback scenario. -/
def demoRawLine : RawLine :=
  { code := some "", name := some "Unknown X", debit := some 5, credit := some 0,
    balance := some 5 }

/-- A raw line whose balance is stored as zero. -/
def demoRawZero : RawLine :=
  { code := some "", name := some "Zero B", debit := some 5, credit := some 0,
    balance := some 0 }

/-- The column mapping of the mapping-absent extraction scenario: only a name
column and a balance column. -/
def demoMapping : ColumnMapping :=
  { codeIndex := -1, nameIndex := 0, debitIndex := -1, creditIndex := -1,
    balanceIndex := 1, startRow := 0 }

/-- The row of the mapping-absent extraction scenario. -/
def demoRow : List String := ["Cash", "-25"]

/-- From the claim: without a custom model, category `a` may precede `b`
when its default rank (99 when unlisted) is smaller, or the ranks tie and
`a` was discovered no later than `b` (`Q` being the discovery order). -/
def specOrderNoCustom (Q : String → String → Prop) (a b : String) : Prop :=
  rank99 a < rank99 b ∨ (rank99 a = rank99 b ∧ Q a b)

/-- From the claim: with a custom model, two table entries are ordered by
their ranks, a table entry precedes a category absent from the table, and
two absent categories are ordered alphabetically. -/
def specOrderCustom (a b : String) : Prop :=
  match defaultOrderMap a, defaultOrderMap b with
  | some ra, some rb => ra ≤ rb
  | some _, none => True
  | none, some _ => False
  | none, none => a ≤ b

/-- The stability relation of a comparator-driven stable sort: `x` precedes
`y` either strictly, or as a tie in which case the prior order `Q` is
kept. -/
def stRel {α : Type} (r : α → α → Prop) (Q : α → α → Prop) (x y : α) : Prop :=
  (r x y ∧ ¬ r y x) ∨ (r x y ∧ r y x ∧ Q x y)

/-- One concrete asset group of the scenario statement. -/
def demoGroup : CatGroup :=
  { name := "Caja y Bancos", accounts := [demoCash], total := 100 }

/-- The five account type strings that own a section of the statement. -/
def classifiedTypes : List String :=
  ["ACTIVO", "PASIVO", "PATRIMONIO_NETO", "INGRESOS", "EGRESOS"]

/-! ## Helper lemmas -/

/-- A left fold adding a projection equals the sum of the projected list. -/
theorem foldl_add_eq_sum {α : Type} (f : α → Rat) :
    ∀ (l : List α) (init : Rat), l.foldl (fun s a => s + f a) init = init + (l.map f).sum := by
  intro l
  induction l with
  | nil => intro init; simp
  | cons a l ih => intro init; simp [List.foldl_cons, ih, add_assoc]

/-- Index access through `mergeFrom` relates output lines to input lines. -/
theorem mergeFrom_get (uuid : Nat → String) (cmap : Nat → Option ClassifEntry) :
    ∀ (raw : List RawLine) (k i : Nat),
      (mergeFrom uuid cmap k raw).get? i = (raw.get? i).map (mergedLine uuid cmap (k + i)) := by
  intro raw
  induction raw with
  | nil => intro k i; simp [mergeFrom]
  | cons acc rest ih =>
    intro k i
    cases i with
    | zero => simp [mergeFrom]
    | succ j =>
      simp only [mergeFrom, List.get?_cons_succ, ih rest.length, ih (k + 1) j]
      have : k + 1 + j = k + (j + 1) := by omega
      rw [this]

/-- The ids produced by `mergeFrom` are the uuid stream over a range. -/
theorem mergeFrom_ids (uuid : Nat → String) (cmap : Nat → Option ClassifEntry) :
    ∀ (raw : List RawLine) (k : Nat),
      (mergeFrom uuid cmap k raw).map (fun a => a.id) = (List.range' k raw.length).map uuid := by
  intro raw
  induction raw with
  | nil => intro k; simp [mergeFrom]
  | cons acc rest ih => intro k; simp [mergeFrom, mergedLine, List.range', ih]

/-- Trimming the empty string yields the empty string. -/
theorem trim_empty : "".trim = "" := by with_unfolding_all decide

/-- The extraction loop keeps exactly the rows with a non-empty trimmed name
cell, in order, and maps each to its `mkLine`. -/
theorem extractLoop_eq (m : ColumnMapping) :
    ∀ (l : List (List String)),
      extractLoop m l = (l.filter (fun r => rowName m r != "")).map (mkLine m) := by
  intro l
  induction l with
  | nil => simp [extractLoop]
  | cons row rest ih =>
    by_cases hempty : row.isEmpty
    · have hname : rowName m row = "" := by
        have hrow : row = [] := List.isEmpty_iff.mp hempty
        subst hrow
        unfold rowName getCell
        split
        · simp [trim_empty]
        · rfl
      simp [extractLoop, hempty, hname, ih]
    · by_cases hname : rowName m row = ""
      · simp [extractLoop, hempty, hname, ih]
      · simp [extractLoop, hempty, hname, ih]

/-! ## C2: the category ordering policy -/

/-- The comparator preorder's comparison with the alphabetical order. -/
theorem alphaCmp_le_iff (a b : String) : alphaCmp a b ≤ 0 ↔ a ≤ b := by
  unfold alphaCmp
  by_cases h : a < b
  · rw [if_pos h]
    exact ⟨fun _ => le_of_lt h, fun _ => by decide⟩
  · rw [if_neg h]
    by_cases h2 : b < a
    · rw [if_pos h2]
      constructor
      · intro hc; exact absurd hc (by decide)
      · intro hle; exact ((lt_irrefl a) (lt_of_le_of_lt hle h2)).elim
    · rw [if_neg h2]
      exact ⟨fun _ => le_of_not_lt h2, fun _ => by decide⟩

/-- The sort preorder is total. -/
theorem sortRel_total (c : Bool) : ∀ a b, sortRel c a b ∨ sortRel c b a := by
  intro a b
  cases c
  · simp only [sortRel, srcCompare]
    omega
  · simp only [sortRel, srcCompare]
    rcases ha : defaultOrderMap a with _ | ra <;>
      rcases hb : defaultOrderMap b with _ | rb <;>
        simp only [ha, hb]
    · rw [alphaCmp_le_iff, alphaCmp_le_iff]
      exact le_total a b
    · right; omega
    · left; omega
    · omega

/-- The sort preorder is transitive. -/
theorem sortRel_trans (c : Bool) :
    ∀ a b d, sortRel c a b → sortRel c b d → sortRel c a d := by
  intro a b d
  cases c
  · simp only [sortRel, srcCompare]
    omega
  · simp only [sortRel, srcCompare]
    rcases ha : defaultOrderMap a with _ | ra <;>
      rcases hb : defaultOrderMap b with _ | rb <;>
        rcases hd : defaultOrderMap d with _ | rd <;>
          simp only [ha, hb, hd] <;>
            intro h1 h2
    all_goals
      first
      | omega
      | (rw [alphaCmp_le_iff] at h1 h2 ⊢; exact le_trans h1 h2)

/-- Inserting into a sorted list keeps the stability relation pairwise, when
the inserted element came before every list element in the prior order. -/
theorem orderedInsert_pairwise_stable {α : Type} (r : α → α → Prop) [DecidableRel r]
    (total : ∀ a b, r a b ∨ r b a)
    (htrans : ∀ a b d, r a b → r b d → r a d)
    (Q : α → α → Prop) (a : α) :
    ∀ L : List α, L.Sorted r → L.Pairwise (stRel r Q) → (∀ x ∈ L, Q a x) →
      (List.orderedInsert r a L).Pairwise (stRel r Q) := by
  intro L
  induction L with
  | nil => intro _ _ _; simp [List.orderedInsert]
  | cons b L ih =>
    intro hsort hpw hQ
    rw [List.orderedInsert]
    split
    · next hab =>
      refine List.pairwise_cons.mpr ⟨?_, hpw⟩
      intro x hx
      rcases List.mem_cons.mp hx with rfl | hxL
      · by_cases hba : r x a
        · exact Or.inr ⟨hab, hba, hQ x (List.mem_cons_self _ _)⟩
        · exact Or.inl ⟨hab, hba⟩
      · have hbx : r b x := List.rel_of_sorted_cons hsort x hxL
        have hax : r a x := htrans a b x hab hbx
        by_cases hxa : r x a
        · exact Or.inr ⟨hax, hxa, hQ x (List.mem_cons_of_mem b hxL)⟩
        · exact Or.inl ⟨hax, hxa⟩
    · next hab =>
      refine List.pairwise_cons.mpr ⟨?_, ?_⟩
      · intro y hy
        rcases (List.mem_orderedInsert r).mp hy with rfl | hyL
        · exact Or.inl ⟨(total y b).resolve_left hab, hab⟩
        · exact (List.pairwise_cons.mp hpw).1 y hyL
      · exact ih (List.sorted_cons.mp hsort).2 (List.pairwise_cons.mp hpw).2
          (fun x hx => hQ x (List.mem_cons_of_mem b hx))

/-- A comparator-driven insertion sort is pairwise ordered by the stability
relation: strict comparator order, with ties kept in prior order. -/
theorem insertionSort_pairwise_stable {α : Type} (r : α → α → Prop) [DecidableRel r]
    (total : ∀ a b, r a b ∨ r b a)
    (htrans : ∀ a b d, r a b → r b d → r a d)
    (Q : α → α → Prop) :
    ∀ l : List α, l.Pairwise Q → (List.insertionSort r l).Pairwise (stRel r Q) := by
  intro l
  induction l with
  | nil => intro _; simp [List.insertionSort]
  | cons a l ih =>
    intro hpw
    rw [List.insertionSort]
    haveI : IsTotal α r := ⟨total⟩
    haveI : IsTrans α r := ⟨htrans⟩
    exact orderedInsert_pairwise_stable r total htrans Q a _
      (List.sorted_insertionSort r l)
      (ih (List.pairwise_cons.mp hpw).2)
      (fun x hx => (List.pairwise_cons.mp hpw).1 x ((List.perm_insertionSort r l).mem_iff.mp hx))

/-- The stability relation of the no-custom-model comparator implies the
claimed rank ordering with ties in discovery order. -/
theorem stRel_false_imp (Q : String → String → Prop) (x y : String) :
    stRel (sortRel false) Q x y → specOrderNoCustom Q x y := by
  intro h
  rcases h with ⟨h1, h2⟩ | ⟨h1, h2, hq⟩
  · left
    simp only [sortRel, srcCompare] at h1 h2
    omega
  · right
    refine ⟨?_, hq⟩
    simp only [sortRel, srcCompare] at h1 h2
    omega

/-- The stability relation of the custom-model comparator implies the
claimed table-first ordering with an alphabetical tail. -/
theorem stRel_true_imp (Q : String → String → Prop) (x y : String) :
    stRel (sortRel true) Q x y → specOrderCustom x y := by
  intro h
  have h1 : sortRel true x y := by
    rcases h with ⟨h1, _⟩ | ⟨h1, _, _⟩ <;> exact h1
  unfold specOrderCustom
  rcases hx : defaultOrderMap x with _ | rx <;> rcases hy : defaultOrderMap y with _ | ry <;>
    simp only [sortRel, srcCompare, hx, hy] at h1 <;> simp only [hx, hy]
  · exact (alphaCmp_le_iff x y).mp h1
  · exact absurd h1 (by decide)
  · omega

/-- C2.  Category ordering policy: for every discovered key sequence (with
`Q` the discovery order), the sorted key sequence is a permutation of the
keys; without a custom model it is pairwise ordered by the fixed table rank
(`99` for unlisted categories) with ties kept in discovery order; with a
custom model it is pairwise ordered table-rank first, table entries before
unknown categories, and unknown pairs alphabetically instead of by
discovery order. -/
theorem c2_category_ordering :
    ∀ (keys : List String) (Q : String → String → Prop), keys.Pairwise Q →
      ((sortedCategories false keys).Perm keys ∧
        (sortedCategories false keys).Pairwise (specOrderNoCustom Q)) ∧
      ((sortedCategories true keys).Perm keys ∧
        (sortedCategories true keys).Pairwise specOrderCustom) := by
  intro keys Q hpw
  refine ⟨⟨List.perm_insertionSort _ _, ?_⟩, ⟨List.perm_insertionSort _ _, ?_⟩⟩
  · exact (insertionSort_pairwise_stable (sortRel false) (sortRel_total false)
      (sortRel_trans false) Q keys hpw).imp (fun h => stRel_false_imp Q _ _ h)
  · exact (insertionSort_pairwise_stable (sortRel true) (sortRel_total true)
      (sortRel_trans true) Q keys hpw).imp (fun h => stRel_true_imp Q _ _ h)

/-- Witness for C2: a key list mixing two table categories with two custom
ones, discovery order given by distinctness of the concrete keys. -/
theorem c2_witness :
    (["Inversiones", "Caja y Bancos", "Zz", "Aa"] : List String).Pairwise (fun a b => a ≠ b) ∧
    (((sortedCategories false ["Inversiones", "Caja y Bancos", "Zz", "Aa"]).Perm
        ["Inversiones", "Caja y Bancos", "Zz", "Aa"] ∧
      (sortedCategories false ["Inversiones", "Caja y Bancos", "Zz", "Aa"]).Pairwise
        (specOrderNoCustom (fun a b => a ≠ b))) ∧
     ((sortedCategories true ["Inversiones", "Caja y Bancos", "Zz", "Aa"]).Perm
        ["Inversiones", "Caja y Bancos", "Zz", "Aa"] ∧
      (sortedCategories true ["Inversiones", "Caja y Bancos", "Zz", "Aa"]).Pairwise
        specOrderCustom)) := by
  have hpw : (["Inversiones", "Caja y Bancos", "Zz", "Aa"] : List String).Pairwise
      (fun a b => a ≠ b) := by decide
  exact ⟨hpw, c2_category_ordering _ _ hpw⟩

/-! ## C3: the consistency checker -/

/-- C3.  Consistency Checker finding-iff: the checker emits exactly one
`high`-severity finding, with the `toFixed(2)` difference embedded in its
message and an empty related-line set, exactly when `abs(grandTotal) > 1`
(the grand total summing balances of all non-group lines irrespective of
section), and no finding otherwise; the balanced three-line scenario emits
nothing, and moving the equity balance to `-50` emits one `high` finding
whose message mentions `10.00`. -/
theorem c3_consistency_finding_iff :
    (∀ accounts : List AccountLine,
      inconsistencies accounts =
        (if 1 < |grandTotal accounts| then
          [{ id := "diff-balance", severity := "high",
             message := "El balance no da cero (Diferencia: " ++ toFixed2 (grandTotal accounts) ++
               "). Revisar asientos.",
             relatedAccountIds := [] }]
         else []) ∧
      (inconsistencies accounts = [] ↔ |grandTotal accounts| ≤ 1)) ∧
    inconsistencies demoBalanced = [] ∧
    inconsistencies demoUnbalanced =
      [{ id := "diff-balance", severity := "high",
         message := "El balance no da cero (Diferencia: " ++ "10.00" ++ "). Revisar asientos.",
         relatedAccountIds := [] }] := by
  refine ⟨fun accounts => ⟨rfl, ?_⟩, ?_, ?_⟩
  · unfold inconsistencies
    by_cases h : 1 < |grandTotal accounts|
    · simp [h, not_le.mpr h]
    · simp [h, not_lt.mp h]
  · with_unfolding_all decide
  · with_unfolding_all decide

/-! ## C4: fallback completeness of the classification merger -/

/-- C4.  Fallback completeness: for every raw line sequence and every
classification mapping (total function from index to optional entry, hence
covering empty, shorter, longer and misaligned mappings), the merge produces
exactly `len(rawLines)` lines in input order; an index with no entry falls
back to `type = "SIN_CLASIFICAR"` (the Unclassified section) and
`category = "Sin Clasificar"` with `isGroup = false`; every produced line
carries the freshly drawn uuid of its index and `manualOverride = false`,
and distinct uuids make all produced ids distinct. -/
theorem c4_fallback_completeness :
    ∀ (uuid : Nat → String) (cmap : Nat → Option ClassifEntry) (raw : List RawLine),
      (classifyAccounts uuid cmap raw).length = raw.length ∧
      (∀ i : Nat, (classifyAccounts uuid cmap raw).get? i =
        (raw.get? i).map (mergedLine uuid cmap i)) ∧
      (∀ i l, (classifyAccounts uuid cmap raw).get? i = some l →
        l.id = uuid i ∧ l.manualOverride = false ∧
        (cmap i = none →
          l.type = "SIN_CLASIFICAR" ∧ l.category = "Sin Clasificar" ∧ l.isGroup = false)) ∧
      (Function.Injective uuid →
        ((classifyAccounts uuid cmap raw).map (fun a => a.id)).Nodup) := by
  intro uuid cmap raw
  refine ⟨?_, ?_, ?_, ?_⟩
  · have h := congrArg List.length (mergeFrom_ids uuid cmap raw 0)
    simpa using h
  · intro i
    have h := mergeFrom_get uuid cmap raw 0 i
    simpa [classifyAccounts] using h
  · intro i l hl
    have h := mergeFrom_get uuid cmap raw 0 i
    rw [classifyAccounts] at hl
    rw [h] at hl
    rcases hacc : raw.get? i with _ | acc
    · rw [hacc] at hl; simp at hl
    · rw [hacc] at hl
      simp only [Option.map_some', Option.some_inj] at hl
      subst hl
      refine ⟨by simp [mergedLine], by simp [mergedLine], fun hnone => ?_⟩
      simp [mergedLine, hnone]
  · intro hinj
    rw [classifyAccounts, mergeFrom_ids]
    exact (List.nodup_range' 0 raw.length).map hinj

/-- Witness for C4: the empty mapping over a one-line raw sequence. -/
theorem c4_witness :
    Function.Injective demoUuid ∧
    (classifyAccounts demoUuid (fun _ => none) [demoRawLine]).length = 1 ∧
    (classifyAccounts demoUuid (fun _ => none) [demoRawLine]).get? 0 =
      some (mergedLine demoUuid (fun _ => none) 0 demoRawLine) ∧
    (mergedLine demoUuid (fun _ => none) 0 demoRawLine).type = "SIN_CLASIFICAR" ∧
    (mergedLine demoUuid (fun _ => none) 0 demoRawLine).category = "Sin Clasificar" ∧
    (mergedLine demoUuid (fun _ => none) 0 demoRawLine).isGroup = false ∧
    ((classifyAccounts demoUuid (fun _ => none) [demoRawLine]).map (fun a => a.id)).Nodup := by
  have hinj : Function.Injective demoUuid := by
    intro a b h
    have hlen := congrArg (fun s => s.data.length) h
    simpa [demoUuid] using hlen
  have h := c4_fallback_completeness demoUuid (fun _ => none) [demoRawLine]
  have hget := h.2.1 0
  have hsome : (classifyAccounts demoUuid (fun _ => none) [demoRawLine]).get? 0 =
      some (mergedLine demoUuid (fun _ => none) 0 demoRawLine) := by
    rw [hget]; rfl
  have hfall := (h.2.2.1 0 _ hsome).2.2 rfl
  exact ⟨hinj, by simpa using h.1, hsome, hfall.1, hfall.2.1, hfall.2.2, h.2.2.2 hinj⟩

/-! ## C5: the line editor -/

/-- C5.  Edit semantics: `handleManualEdit` preserves length, leaves every
line with a non-matching id unchanged, replaces each matching line by its
edited version, always sets `manualOverride = true` on the edited line,
re-derives `balance = debit - credit` from the new value and the other
field's prior value when debit or credit is edited, and leaves debit and
credit untouched when balance itself is edited. -/
theorem c5_edit_semantics :
    ∀ (lines : List AccountLine) (id : String) (fv : FieldVal),
      (handleManualEdit lines id fv).length = lines.length ∧
      (∀ i a, lines.get? i = some a → a.id ≠ id →
        (handleManualEdit lines id fv).get? i = some a) ∧
      (∀ i a, lines.get? i = some a → a.id = id →
        (handleManualEdit lines id fv).get? i = some (editLine a fv)) ∧
      (∀ a, (editLine a fv).manualOverride = true) ∧
      (∀ a v, editLine a (FieldVal.debit v) =
        { a with debit := v, balance := v - a.credit, manualOverride := true }) ∧
      (∀ a v, editLine a (FieldVal.credit v) =
        { a with credit := v, balance := a.debit - v, manualOverride := true }) ∧
      (∀ a v, editLine a (FieldVal.balance v) =
        { a with balance := v, manualOverride := true }) := by
  intro lines id fv
  refine ⟨by simp [handleManualEdit], ?_, ?_, ?_, fun a v => rfl, fun a v => rfl, fun a v => rfl⟩
  · intro i a ha hne
    have hmap : (handleManualEdit lines id fv).get? i =
        (lines.get? i).map (fun acc => if acc.id = id then editLine acc fv else acc) :=
      List.get?_map _ _ _
    rw [hmap, ha]
    simp [hne]
  · intro i a ha heq
    have hmap : (handleManualEdit lines id fv).get? i =
        (lines.get? i).map (fun acc => if acc.id = id then editLine acc fv else acc) :=
      List.get?_map _ _ _
    rw [hmap, ha]
    simp [heq]
  · intro a
    cases fv <;> rfl

/-- Witness for C5: editing the debit of the loan line. -/
theorem c5_witness :
    demoBalanced.get? 0 = some demoCash ∧ demoCash.id ≠ "l1" ∧
    (handleManualEdit demoBalanced "l1" (FieldVal.debit 7)).get? 0 = some demoCash ∧
    demoBalanced.get? 1 = some demoLoan ∧ demoLoan.id = "l1" ∧
    (handleManualEdit demoBalanced "l1" (FieldVal.debit 7)).get? 1 =
      some (editLine demoLoan (FieldVal.debit 7)) := by
  have h := c5_edit_semantics demoBalanced "l1" (FieldVal.debit 7)
  exact ⟨rfl, by decide, h.2.1 0 demoCash rfl (by decide), rfl, rfl,
    h.2.2.1 1 demoLoan rfl rfl⟩

/-! ## C7: the single-balance-column extraction rule -/

/-- C7.  Single-balance extraction rule: when a balance column is mapped but
debit and credit are not both mapped, the retained row's balance is the
parsed signed value, its debit is `max(balance, 0)` and its credit is
`max(-balance, 0)`. -/
theorem c7_single_balance_rule :
    ∀ (m : ColumnMapping) (row : List String),
      m.balanceIndex > -1 → ¬(m.debitIndex > -1 ∧ m.creditIndex > -1) →
      ((mkLine m row).balance = some (parseNum (numCellStr row m.balanceIndex)) ∧
       (mkLine m row).debit = some (max (parseNum (numCellStr row m.balanceIndex)) 0) ∧
       (mkLine m row).credit = some (max (-parseNum (numCellStr row m.balanceIndex)) 0)) := by
  intro m row hbal hnodc
  have hcond : ¬(m.debitIndex > -1 && m.creditIndex > -1) = true := by
    simpa [Bool.and_eq_true, decide_eq_true_iff] using hnodc
  unfold mkLine
  rw [if_neg hcond, if_pos (by simpa [decide_eq_true_iff] using hbal)]
  set b := parseNum (numCellStr row m.balanceIndex) with hb
  refine ⟨rfl, ?_, ?_⟩
  · by_cases hpos : b > 0
    · simp [hpos, max_eq_left (le_of_lt hpos)]
    · simp [hpos, max_eq_right (not_lt.mp hpos)]
  · by_cases hpos : b > 0
    · simp [hpos, max_eq_right (neg_nonpos.mpr (le_of_lt hpos))]
    · have h0 : 0 ≤ -b := neg_nonneg.mpr (not_lt.mp hpos)
      simp [hpos, abs_of_nonpos (not_lt.mp hpos), max_eq_left h0]

/-- Witness for C7: the `-25` scenario yields `debit = 0`, `credit = 25`,
`balance = -25`. -/
theorem c7_witness :
    (demoMapping.balanceIndex > -1 ∧ ¬(demoMapping.debitIndex > -1 ∧ demoMapping.creditIndex > -1)) ∧
    (mkLine demoMapping demoRow).balance = some (-25) ∧
    (mkLine demoMapping demoRow).debit = some 0 ∧
    (mkLine demoMapping demoRow).credit = some 25 ∧
    parseFinancialRows [demoRow] demoMapping = [mkLine demoMapping demoRow] := by
  have h := c7_single_balance_rule demoMapping demoRow (by decide) (by decide)
  refine ⟨⟨by decide, by decide⟩, ?_, ?_, ?_, by with_unfolding_all decide⟩
  · exact h.1.trans (by with_unfolding_all decide)
  · exact h.2.1.trans (by with_unfolding_all decide)
  · exact h.2.2.trans (by with_unfolding_all decide)

/-! ## C8: extractor totality and leniency -/

/-- C8.  Totality and leniency of the row extractor: extraction is a total
function returning at most one line per input row (never an error); the
retained rows are exactly those whose name cell trims to a non-empty string,
in input order; and a numeric cell whose stripped text fails to parse
contributes zero. -/
theorem c8_extractor_totality :
    ∀ (rows : List (List String)) (m : ColumnMapping),
      parseFinancialRows rows m =
        ((rows.drop m.startRow.toNat).filter (fun r => rowName m r != "")).map (mkLine m) ∧
      (parseFinancialRows rows m).length ≤ rows.length ∧
      (∀ s, parseSigned (stripNum s) = none → parseNum s = 0) := by
  intro rows m
  have heq : parseFinancialRows rows m =
      ((rows.drop m.startRow.toNat).filter (fun r => rowName m r != "")).map (mkLine m) :=
    extractLoop_eq m _
  refine ⟨heq, ?_, fun s hs => by simp [parseNum, hs]⟩
  calc (parseFinancialRows rows m).length
      = ((rows.drop m.startRow.toNat).filter (fun r => rowName m r != "")).length := by
        rw [heq, List.length_map]
    _ ≤ (rows.drop m.startRow.toNat).length := List.length_filter_le _ _
    _ ≤ rows.length := by rw [List.length_drop]; omega

/-- Witness for C8: the unparsable cell `"abc"` contributes zero. -/
theorem c8_witness :
    parseSigned (stripNum "abc") = none ∧ parseNum "abc" = 0 := by
  have h := (c8_extractor_totality [] demoMapping).2.2 "abc" (by decide)
  exact ⟨by decide, h⟩

/-! ## C6: total additivity -/

/-- Every emitted category group's total is the sum of its members'
balances. -/
theorem groupBy_total_eq (c : Bool) (accounts : List AccountLine) (t : String) :
    ∀ g ∈ groupByTypeAndCategory c accounts t,
      g.total = (g.accounts.map (fun a => a.balance)).sum := by
  intro g hg
  unfold groupByTypeAndCategory at hg
  obtain ⟨cat, _, rfl⟩ := List.mem_map.mp hg
  simp only
  rw [foldl_add_eq_sum, zero_add]

/-- C6.  Total additivity: every category total is the sum of its lines'
balances, every section total is the sum of its category totals, and the net
period result is `abs(revenueTotal) - abs(expenseTotal)`. -/
theorem c6_total_additivity :
    ∀ (c : Bool) (accounts : List AccountLine),
      (∀ g ∈ (groupedFinancials c accounts).assets,
        g.total = (g.accounts.map (fun a => a.balance)).sum) ∧
      (∀ g ∈ (groupedFinancials c accounts).liabilities,
        g.total = (g.accounts.map (fun a => a.balance)).sum) ∧
      (∀ g ∈ (groupedFinancials c accounts).equity,
        g.total = (g.accounts.map (fun a => a.balance)).sum) ∧
      (∀ g ∈ (groupedFinancials c accounts).revenue,
        g.total = (g.accounts.map (fun a => a.balance)).sum) ∧
      (∀ g ∈ (groupedFinancials c accounts).expenses,
        g.total = (g.accounts.map (fun a => a.balance)).sum) ∧
      (groupedFinancials c accounts).assetsTotal =
        (((groupedFinancials c accounts).assets).map (fun g => g.total)).sum ∧
      (groupedFinancials c accounts).liabilitiesTotal =
        (((groupedFinancials c accounts).liabilities).map (fun g => g.total)).sum ∧
      (groupedFinancials c accounts).equityTotal =
        (((groupedFinancials c accounts).equity).map (fun g => g.total)).sum ∧
      (groupedFinancials c accounts).revenueTotal =
        (((groupedFinancials c accounts).revenue).map (fun g => g.total)).sum ∧
      (groupedFinancials c accounts).expenseTotal =
        (((groupedFinancials c accounts).expenses).map (fun g => g.total)).sum ∧
      (groupedFinancials c accounts).netResult =
        |(groupedFinancials c accounts).revenueTotal| -
          |(groupedFinancials c accounts).expenseTotal| := by
  intro c accounts
  have htot : ∀ t : String,
      List.foldl (fun s (g : CatGroup) => s + g.total) 0 (groupByTypeAndCategory c accounts t) =
        ((groupByTypeAndCategory c accounts t).map (fun g => g.total)).sum := by
    intro t
    rw [foldl_add_eq_sum, zero_add]
  exact ⟨groupBy_total_eq c accounts "ACTIVO", groupBy_total_eq c accounts "PASIVO",
    groupBy_total_eq c accounts "PATRIMONIO_NETO", groupBy_total_eq c accounts "INGRESOS",
    groupBy_total_eq c accounts "EGRESOS", htot "ACTIVO", htot "PASIVO",
    htot "PATRIMONIO_NETO", htot "INGRESOS", htot "EGRESOS", rfl⟩

/-- Witness for C6: the cash group of the scenario statement. -/
theorem c6_witness :
    demoGroup ∈ (groupedFinancials false demoBalanced).assets ∧
    demoGroup.total = (demoGroup.accounts.map (fun a => a.balance)).sum := by
  have hmem : demoGroup ∈ (groupedFinancials false demoBalanced).assets := by
    with_unfolding_all decide
  exact ⟨hmem, (c6_total_additivity false demoBalanced).1 demoGroup hmem⟩

/-! ## C1: grouping completeness -/

/-- Membership in `dedupFirst` agrees with membership in the source list. -/
theorem mem_dedupFirst : ∀ (l : List String) (x : String), x ∈ dedupFirst l ↔ x ∈ l := by
  intro l
  induction l using dedupFirst.induct with
  | case1 => intro x; rw [dedupFirst]
  | case2 a l ih =>
    intro x
    rw [dedupFirst]
    rcases eq_or_ne x a with rfl | hxa
    · simp
    · simp only [List.mem_cons, ih, List.mem_filter, bne_iff_ne, ne_eq]
      simp [hxa]

/-- `dedupFirst` produces a duplicate-free list. -/
theorem nodup_dedupFirst : ∀ (l : List String), (dedupFirst l).Nodup := by
  intro l
  induction l using dedupFirst.induct with
  | case1 => rw [dedupFirst]; exact List.nodup_nil
  | case2 a l ih =>
    rw [dedupFirst]
    refine List.nodup_cons.mpr ⟨?_, ih⟩
    intro hmem
    rw [mem_dedupFirst] at hmem
    have h := (List.mem_filter.mp hmem).2
    simp at h

/-- Permuting an outer list of lists permutes its concatenation. -/
theorem flatten_perm_of_perm {α : Type} :
    ∀ {l1 l2 : List (List α)}, l1.Perm l2 → l1.flatten.Perm l2.flatten := by
  intro l1 l2 h
  induction h with
  | nil => simp
  | cons x _ ih => simpa using ih.append_left x
  | swap x y l =>
    simp only [List.flatten_cons, ← List.append_assoc]
    exact List.perm_append_comm.append_right _
  | trans _ _ ih1 ih2 => exact ih1.trans ih2

/-- Splitting off one key's bucket from a filter over the remaining keys. -/
theorem filter_key_append_perm {α : Type} (key : α → String) (k : String)
    (ks : List String) (hk : k ∉ ks) :
    ∀ l : List α,
      (l.filter (fun a => key a == k) ++ l.filter (fun a => ks.contains (key a))).Perm
        (l.filter (fun a => (k :: ks).contains (key a))) := by
  intro l
  induction l with
  | nil => simp
  | cons a l ih =>
    by_cases h1 : key a = k
    · have h1c : (key a == k) = true := by simpa using h1
      have h2 : ks.contains (key a) = false := by
        rw [h1]
        simpa using hk
      have h3 : (k :: ks).contains (key a) = true := by simp [h1]
      simp only [List.filter_cons, h1c, if_true, h2, h3,
        Bool.false_eq_true, if_false, List.cons_append]
      exact ih.cons a
    · have h1b : (key a == k) = false := by simpa using h1
      by_cases h2 : ks.contains (key a) = true
      · have h3 : (k :: ks).contains (key a) = true := by
          rw [List.contains_cons, h2, Bool.or_true]
        simp only [List.filter_cons, h1b, Bool.false_eq_true, if_false, h2, if_true, h3]
        exact (List.perm_middle).trans (ih.cons a)
      · have h2b : ks.contains (key a) = false := by simpa using h2
        have h3 : (k :: ks).contains (key a) = false := by
          simp only [List.contains_cons, h2b, Bool.or_false]
          simpa using h1
        simp only [List.filter_cons, h1b, Bool.false_eq_true, if_false, h2b, h3]
        exact ih

/-- Concatenating the per-key buckets of a list permutes its filter by key
membership, for duplicate-free keys. -/
theorem flatten_filter_buckets_perm {α : Type} (key : α → String) :
    ∀ (keys : List String) (l : List α), keys.Nodup →
      ((keys.map (fun k => l.filter (fun a => key a == k))).flatten).Perm
        (l.filter (fun a => keys.contains (key a))) := by
  intro keys
  induction keys with
  | nil => intro l _; simp
  | cons k ks ih =>
    intro l hnodup
    have hk : k ∉ ks := (List.nodup_cons.mp hnodup).1
    simp only [List.map_cons, List.flatten_cons]
    exact ((ih l (List.nodup_cons.mp hnodup).2).append_left _).trans
      (filter_key_append_perm key k ks hk l)

/-- The buckets emitted for a filtered section, concatenated in sorted key
order, permute the filtered section itself. -/
theorem buckets_lines_perm (c : Bool) (filtered : List AccountLine) :
    (((sortedCategories c (dedupFirst (filtered.map catOf))).map
        (fun cat => groupMembers filtered cat)).flatten).Perm filtered := by
  have h3 := flatten_perm_of_perm
    ((List.perm_insertionSort (sortRel c) (dedupFirst (filtered.map catOf))).map
      (fun cat => groupMembers filtered cat))
  have h4 := flatten_filter_buckets_perm catOf (dedupFirst (filtered.map catOf)) filtered
    (nodup_dedupFirst _)
  have h5 : filtered.filter (fun a => (dedupFirst (filtered.map catOf)).contains (catOf a)) =
      filtered := by
    rw [List.filter_eq_self]
    intro a ha
    have hmem : catOf a ∈ dedupFirst (filtered.map catOf) :=
      (mem_dedupFirst _ _).mpr (List.mem_map_of_mem catOf ha)
    simpa using hmem
  rw [h5] at h4
  exact h3.trans h4

/-- The lines of one section of the statement permute the non-group lines of
that account type. -/
theorem groupBy_lines_perm (c : Bool) (accounts : List AccountLine) (t : String) :
    (((groupByTypeAndCategory c accounts t).map (fun g => g.accounts)).flatten).Perm
      (accounts.filter (fun a => a.type == t && !a.isGroup)) := by
  have h := buckets_lines_perm c (accounts.filter (fun a => a.type == t && !a.isGroup))
  have heq : (groupByTypeAndCategory c accounts t).map (fun g => g.accounts) =
      (sortedCategories c
          (dedupFirst ((accounts.filter (fun a => a.type == t && !a.isGroup)).map catOf))).map
        (fun cat => groupMembers (accounts.filter (fun a => a.type == t && !a.isGroup)) cat) := by
    unfold groupByTypeAndCategory
    rw [List.map_map]
    rfl
  rw [heq]
  exact h

/-- C1 counterexample: a non-group line whose section is Unclassified appears
in no category group of the produced statement, so the union of all category
groups' lines falls short of the non-group line set. -/
theorem c1_counterexample :
    ¬ (statementLines (groupedFinancials false [demoUnclassified])).Perm
        ([demoUnclassified].filter (fun a => !a.isGroup)) := by
  with_unfolding_all decide

/-- C1 (amended).  Grouping completeness over the classified sections: the
concatenation of all category groups' line lists across the five sections of
the produced statement is a permutation of (hence equal as a multiset to,
with no line dropped or duplicated) the non-group input lines whose type is
one of the five classified sections; non-group Unclassified lines appear in
no group. -/
theorem c1_grouping_completeness :
    ∀ (c : Bool) (accounts : List AccountLine),
      (statementLines (groupedFinancials c accounts)).Perm
        (accounts.filter (fun a => !a.isGroup && classifiedTypes.contains a.type)) := by
  intro c accounts
  have hsec : ∀ t, (((groupByTypeAndCategory c accounts t).map (fun g => g.accounts)).flatten).Perm
      ((accounts.filter (fun a => !a.isGroup)).filter (fun a => a.type == t)) := by
    intro t
    rw [List.filter_filter]
    exact groupBy_lines_perm c accounts t
  have hsplit : statementLines (groupedFinancials c accounts) =
      (((groupByTypeAndCategory c accounts "ACTIVO").map (fun g => g.accounts)).flatten ++
        (((groupByTypeAndCategory c accounts "PASIVO").map (fun g => g.accounts)).flatten ++
          (((groupByTypeAndCategory c accounts "PATRIMONIO_NETO").map
              (fun g => g.accounts)).flatten ++
            (((groupByTypeAndCategory c accounts "INGRESOS").map (fun g => g.accounts)).flatten ++
              ((groupByTypeAndCategory c accounts "EGRESOS").map
                (fun g => g.accounts)).flatten)))) := by
    unfold statementLines groupedFinancials
    simp [List.map_append, List.flatten_append, List.append_assoc]
  have happ := (hsec "ACTIVO").append ((hsec "PASIVO").append ((hsec "PATRIMONIO_NETO").append
    ((hsec "INGRESOS").append (hsec "EGRESOS"))))
  have hbuckets := flatten_filter_buckets_perm (fun a => a.type) classifiedTypes
    (accounts.filter (fun a => !a.isGroup)) (by decide)
  have hflat : ((classifiedTypes.map
      (fun k => (accounts.filter (fun a => !a.isGroup)).filter (fun a => a.type == k))).flatten) =
      ((accounts.filter (fun a => !a.isGroup)).filter (fun a => a.type == "ACTIVO") ++
        ((accounts.filter (fun a => !a.isGroup)).filter (fun a => a.type == "PASIVO") ++
          ((accounts.filter (fun a => !a.isGroup)).filter (fun a => a.type == "PATRIMONIO_NETO") ++
            ((accounts.filter (fun a => !a.isGroup)).filter (fun a => a.type == "INGRESOS") ++
              (accounts.filter (fun a => !a.isGroup)).filter (fun a => a.type == "EGRESOS"))))) := by
    simp [classifiedTypes]
  have hfinal : (accounts.filter (fun a => !a.isGroup)).filter
      (fun a => classifiedTypes.contains a.type) =
      accounts.filter (fun a => !a.isGroup && classifiedTypes.contains a.type) := by
    rw [List.filter_filter]
    apply List.filter_congr
    intro a _
    rw [Bool.and_comm]
  rw [hsplit]
  rw [hflat] at hbuckets
  rw [hfinal] at hbuckets
  exact happ.trans hbuckets

/-! ## C9: idempotent deletion -/

/-- C9.  Idempotent deletion: deleting an id matched by no line returns the
input sequence unchanged; when the id occurs on exactly one line, that line
is removed and every other line is preserved in order. -/
theorem c9_idempotent_deletion :
    ∀ (lines : List AccountLine) (id : String),
      ((∀ a ∈ lines, a.id ≠ id) → handleDeleteAccount lines id = lines) ∧
      (∀ pre a post, lines = pre ++ a :: post → a.id = id →
        (∀ x ∈ pre, x.id ≠ id) → (∀ x ∈ post, x.id ≠ id) →
        handleDeleteAccount lines id = pre ++ post) := by
  intro lines id
  constructor
  · intro hall
    unfold handleDeleteAccount
    rw [List.filter_eq_self]
    intro a ha
    simpa using hall a ha
  · intro pre a post hsplit heq hpre hpost
    subst hsplit
    unfold handleDeleteAccount
    rw [List.filter_append]
    have h1 : pre.filter (fun x => x.id != id) = pre := by
      rw [List.filter_eq_self]; intro x hx; simpa using hpre x hx
    have h2 : (a :: post).filter (fun x => x.id != id) = post := by
      rw [List.filter_cons]
      have : (a.id != id) = false := by simp [heq]
      rw [this]
      simp only [Bool.false_eq_true, if_false]
      rw [List.filter_eq_self]
      intro x hx; simpa using hpost x hx
    rw [h1, h2]

/-- Witness for C9: deleting a missing id is the identity; deleting the loan
line's id removes exactly that line. -/
theorem c9_witness :
    handleDeleteAccount demoBalanced "zz" = demoBalanced ∧
    handleDeleteAccount demoBalanced "l1" = [demoCash] ++ [demoCapital] := by
  have h := c9_idempotent_deletion demoBalanced "zz"
  have h2 := c9_idempotent_deletion demoBalanced "l1"
  exact ⟨h.1 (by decide),
    h2.2 [demoCash] demoLoan [demoCapital] rfl (by decide) (by decide) (by decide)⟩

/-! ## C10: the merger's balance fallback -/

/-- C10.  The merger does not always pass a raw balance through: a raw line
whose balance is absent or stored as zero gets `debit - credit` (absent
sides taken as zero), and only a nonzero raw balance is preserved
verbatim. -/
theorem c10_balance_passthrough :
    ∀ (uuid : Nat → String) (cmap : Nat → Option ClassifEntry) (i : Nat) (acc : RawLine),
      ((acc.balance = none ∨ acc.balance = some 0) →
        (mergedLine uuid cmap i acc).balance = acc.debit.getD 0 - acc.credit.getD 0) ∧
      (∀ b : Rat, acc.balance = some b → b ≠ 0 →
        (mergedLine uuid cmap i acc).balance = b) := by
  intro uuid cmap i acc
  constructor
  · rintro (h | h) <;> simp [mergedLine, h]
  · intro b hb hne
    simp [mergedLine, hb, hne]

/-- Witness for C10: a zero stored balance is re-derived as `5 - 0`, a
nonzero one is passed through. -/
theorem c10_witness :
    demoRawZero.balance = some 0 ∧
    (mergedLine demoUuid (fun _ => none) 0 demoRawZero).balance =
      demoRawZero.debit.getD 0 - demoRawZero.credit.getD 0 ∧
    demoRawLine.balance = some 5 ∧ (5 : Rat) ≠ 0 ∧
    (mergedLine demoUuid (fun _ => none) 0 demoRawLine).balance = 5 := by
  have h0 := c10_balance_passthrough demoUuid (fun _ => none) 0 demoRawZero
  have h5 := c10_balance_passthrough demoUuid (fun _ => none) 0 demoRawLine
  exact ⟨rfl, h0.1 (Or.inr rfl), rfl, by norm_num,
    h5.2 5 rfl (by norm_num)⟩
